import Mathlib

/- Shallow embedding of a streaming JSON-to-XML transcoder (src/main.go).

   The Converter pulls JSON tokens from a source and produces XML tokens one
   at a time, maintaining a frame stack of value kinds (the Go slice
   `types`), a pending-key stack (`keyNames`), an array-binding stack
   (`arrayKeys`) and a one-slot text buffer (`data`).  The Driver (`Convert`)
   wraps the converter output in a constant root element and pumps tokens
   into a sink.

   Go slices used as stacks (append at the end, access the last entry) are
   embedded as Lean lists with the head as the stack top.  The external
   JSONDecoder is embedded as the list of tokens it will deliver; its
   exhaustion is the end-of-stream (io.EOF) signal.  The external XMLEncoder
   sink is embedded by the sequence of tokens it accepted together with a
   failure schedule saying which EncodeToken call (if any) reports an error. -/

/- Value kinds, Go type `ttype` with constants typObject .. typNull. -/
inductive ttype where
  | typObject
  | typArray
  | typBool
  | typNumber
  | typString
  | typNull
deriving DecidableEq

/- Go `ttypeNames = [...]string{"object", "array", "boolean", "number", "string", "null"}`. -/
def ttypeNames : ttype → String
  | .typObject => "object"
  | .typArray => "array"
  | .typBool => "boolean"
  | .typNumber => "number"
  | .typString => "string"
  | .typNull => "null"

/- JSON tokens as delivered by the decoder (Go `json.Token`):
   the four delimiters, booleans, numbers, strings and null.
   `jnum` carries the number token's decimal text: for a `json.Number` token
   this is the source digit text used verbatim (`string(token)`); a `float64`
   token behaves identically once formatted by `strconv.FormatFloat`, whose
   floating-point rendering is outside this embedding.  `encoding/json` can
   produce no other token, so the Go `default` (ErrUnknownToken) branches are
   unreachable and have no constructor here. -/
inductive JToken where
  | objStart
  | objEnd
  | arrStart
  | arrEnd
  | jbool (b : Bool)
  | jnum (s : String)
  | jstr (s : String)
  | jnull
deriving DecidableEq

/- XML tokens produced by the converter (Go xml.StartElement /
   xml.EndElement / xml.CharData, all names local). -/
inductive XToken where
  | startElem (name : String)
  | endElem (name : String)
  | charData (text : String)
deriving DecidableEq

/- Errors a pull can report: io.EOF, ErrInvalidKey, ErrInvalidToken,
   ErrUnknownToken (the latter unreachable, kept for the error taxonomy). -/
inductive PullErr where
  | eof
  | invalidKey
  | invalidToken
  | unknownToken
deriving DecidableEq

/- Go struct Converter: decoder (remaining input), types, data, keyNames,
   arrayKeys.  List heads are the Go slices' last entries (stack tops). -/
structure Converter where
  input : List JToken
  types : List ttype
  data : Option String
  keyNames : List String
  arrayKeys : List String
deriving DecidableEq

/- Go `Tokens(j JSONDecoder) *Converter`: fresh converter, empty stacks. -/
def Tokens (j : List JToken) : Converter :=
  ⟨j, [], none, [], []⟩

/- Go `(c *Converter) outputStart(typ ttype) xml.Token` (main.go:123-146):
   push typ on types; if a pending key exists, name the tag by it, retaining
   the key when it equals the array-binding top and popping it otherwise;
   with no pending key use the kind's default name. -/
def outputStart (c : Converter) (typ : ttype) : Converter × XToken :=
  let c1 : Converter := { c with types := typ :: c.types }
  match c1.keyNames, c1.arrayKeys with
  | lastKey :: restKeys, ak :: _ =>
    if lastKey = ak then
      (c1, .startElem lastKey)
    else
      ({ c1 with keyNames := restKeys }, .startElem lastKey)
  | lastKey :: restKeys, [] =>
    ({ c1 with keyNames := restKeys }, .startElem lastKey)
  | [], _ =>
    (c1, .startElem (ttypeNames typ))

/- Go `(c *Converter) outputEnd() xml.Token` (main.go:148-172): pop the top
   frame; if key and binding tops agree use that shared name without popping,
   else a pending key names the tag and is popped, else the kind default.
   The empty-types case is unreachable: Go indexes types[len-1] and every
   call site has checked the stack is non-empty. -/
def outputEnd (c : Converter) : Converter × XToken :=
  match c.types with
  | [] => (c, .endElem (""))
  | typ :: restTypes =>
    let c1 : Converter := { c with types := restTypes }
    match c1.keyNames, c1.arrayKeys with
    | k :: ks, ak :: _ =>
      if k = ak then
        (c1, .endElem ak)
      else
        ({ c1 with keyNames := ks }, .endElem k)
    | k :: ks, [] =>
      ({ c1 with keyNames := ks }, .endElem k)
    | [], _ =>
      (c1, .endElem (ttypeNames typ))

/- Go `(c *Converter) outputType(typ ttype, data string) xml.Token`
   (main.go:118-121): buffer the scalar text, then open its frame. -/
def outputType (c : Converter) (typ : ttype) (d : String) : Converter × XToken :=
  outputStart { c with data := some d } typ

/- Classification of a (possibly re-fetched) raw token, the big switch in
   Go `Token()` (main.go:77-115). -/
def classify (c : Converter) (tok : JToken) : Converter × Except PullErr XToken :=
  match tok with
  | .objStart =>
    let p := outputStart c .typObject
    (p.1, .ok p.2)
  | .arrStart =>
    let c1 : Converter :=
      match c.keyNames with
      | k :: _ => { c with arrayKeys := k :: c.arrayKeys }
      | [] => c
    let p := outputStart c1 .typArray
    (p.1, .ok p.2)
  | .objEnd =>
    if c.types.head? = some .typObject then
      let p := outputEnd c
      (p.1, .ok p.2)
    else
      (c, .error .invalidToken)
  | .arrEnd =>
    if c.types.head? = some .typArray then
      let c1 : Converter :=
        match c.arrayKeys with
        | _ :: rest => { c with arrayKeys := rest }
        | [] => c
      let p := outputEnd c1
      (p.1, .ok p.2)
    else
      (c, .error .invalidToken)
  | .jbool b =>
    let p := outputType c .typBool (cond b ("true") ("false"))
    (p.1, .ok p.2)
  | .jnum s =>
    let p := outputType c .typNumber s
    (p.1, .ok p.2)
  | .jstr s =>
    let p := outputType c .typString s
    (p.1, .ok p.2)
  | .jnull =>
    let p := outputType c .typNull ("")
    (p.1, .ok p.2)

/- The decoder interaction of Go `Token()` (main.go:62-76): fetch a raw
   token (io.EOF when the list is exhausted); inside an object a non-closing
   token must be a string key, which is pushed before the value token is
   fetched and classified. -/
def readToken (c : Converter) : Converter × Except PullErr XToken :=
  match c.input with
  | [] => (c, .error .eof)
  | tok :: rest =>
    let c1 : Converter := { c with input := rest }
    if c1.types.head? = some .typObject ∧ tok ≠ .objEnd then
      match tok with
      | .jstr k =>
        let c2 : Converter := { c1 with keyNames := k :: c1.keyNames }
        match c2.input with
        | [] => (c2, .error .eof)
        | tok2 :: rest2 => classify { c2 with input := rest2 } tok2
      | _ => (c1, .error .invalidKey)
    else
      classify c1 tok

/- Go `(c *Converter) Token() (xml.Token, error)` (main.go:49-116), one pull:
   flush the buffered character data if any; else close an open scalar
   frame; else interact with the decoder. -/
def Token (c : Converter) : Converter × Except PullErr XToken :=
  match c.data with
  | some s => ({ c with data := none }, .ok (.charData s))
  | none =>
    match c.types.head? with
    | some .typObject => readToken c
    | some .typArray => readToken c
    | some _ =>
      let p := outputEnd c
      (p.1, .ok p.2)
    | none => readToken c

/- Run up to n pulls, collecting the emitted tokens; stop at the first
   error (io.EOF included).  A `none` status means the fuel ran out with no
   terminal signal reached. -/
def RunN : Nat → Converter → Converter × List XToken × Option PullErr
  | 0, c => (c, [], none)
  | n + 1, c =>
    match Token c with
    | (c1, .error e) => (c1, [], some e)
    | (c1, .ok t) =>
      let r := RunN n c1
      (r.1, t :: r.2.1, r.2.2)

/- Every successful pull strictly decreases
   3*|input| + |types| + |data|, so this much fuel always reaches a
   terminal signal. -/
def convFuel (j : List JToken) : Nat :=
  3 * j.length + 2

/- The converter's complete pull sequence on a fresh instance: the emitted
   XML tokens and the terminating signal (some .eof for a clean end). -/
def pullsOut (j : List JToken) : List XToken × Option PullErr :=
  let r := RunN (convFuel j) (Tokens j)
  (r.2.1, r.2.2)

/- Plain serialization of an XML token sequence (escaping and indentation
   belong to the external sink). -/
def serializeTok : XToken → String
  | .startElem n => "<" ++ n ++ ">"
  | .endElem n => "</" ++ n ++ ">"
  | .charData s => s

def serialize (ts : List XToken) : String :=
  ts.foldl (fun acc t => acc ++ serializeTok t) ("")

/- How the driver loop ends: clean end-of-input, a pull error, a sink
   (EncodeToken) failure, or fuel exhaustion (proved unreachable). -/
inductive LoopEnd where
  | done
  | errTok (e : PullErr)
  | errSink
  | fuelOut
deriving DecidableEq

/- Errors `Convert` can return: a converter error or a sink error.
   (`fuelOut` is an artifact of the bounded embedding of Go's unbounded
   loop; it is never produced with `convFuel` fuel.) -/
inductive CErr where
  | pullErr (e : PullErr)
  | sinkErr
  | fuelOut
deriving DecidableEq

/- The driver loop (main.go:185-198): pull, stop at io.EOF, return any
   other pull error; forward the token to the sink (call number n), and
   return the sink's error if that call fails.  Every successful pull
   returns a token, so Go's `tk != nil` guard is always true. -/
def convLoop : Nat → Converter → Nat → (Nat → Bool) → List XToken × Nat × LoopEnd
  | 0, _, n, _ => ([], n, .fuelOut)
  | fuel + 1, c, n, fs =>
    match Token c with
    | (_, .error .eof) => ([], n, .done)
    | (_, .error e) => ([], n, .errTok e)
    | (c1, .ok t) =>
      if fs n then
        ([], n, .errSink)
      else
        let r := convLoop fuel c1 (n + 1) fs
        (t :: r.1, r.2.1, r.2.2)

/- Go `Convert(j JSONDecoder, x XMLEncoder) error` (main.go:174-207): encode
   a start tag named root (sink call 0), run the loop, then encode the
   matching end tag.  `fs` is the sink failure schedule: `fs n = true` means
   the n-th EncodeToken call reports an error.  The result is the list of
   tokens the sink accepted and the returned error (none = success). -/
def Convert (j : List JToken) (fs : Nat → Bool) : List XToken × Option CErr :=
  if fs 0 then
    ([], some .sinkErr)
  else
    let r := convLoop (convFuel j) (Tokens j) 1 fs
    match r.2.2 with
    | .done =>
      if fs r.2.1 then
        (.startElem ("root") :: r.1, some .sinkErr)
      else
        (.startElem ("root") :: r.1 ++ [.endElem ("root")], none)
    | .errTok e => (.startElem ("root") :: r.1, some (.pullErr e))
    | .errSink => (.startElem ("root") :: r.1, some .sinkErr)
    | .fuelOut => (.startElem ("root") :: r.1, some .fuelOut)

/- A sink that never fails. -/
def noFail : Nat → Bool := fun _ => false

/- The scalar kinds and the text `outputType` receives for them
   (main.go:103-112). -/
def scalarKind : JToken → Option ttype
  | .jbool _ => some .typBool
  | .jnum _ => some .typNumber
  | .jstr _ => some .typString
  | .jnull => some .typNull
  | _ => none

def scalarText : JToken → String
  | .jbool b => cond b ("true") ("false")
  | .jnum s => s
  | .jstr s => s
  | .jnull => ""
  | _ => ""

/- ---------------------------------------------------------------------- -/
/- Infrastructure: how one pull transforms input, frame stack and buffer. -/
/- ---------------------------------------------------------------------- -/

/- outputStart only pushes the frame and possibly pops a key. -/
theorem outputStart_state (i : List JToken) (t : List ttype) (d : Option String)
    (ks asK : List String) (typ : ttype) :
    ∃ ks2 tok, outputStart ⟨i, t, d, ks, asK⟩ typ = (⟨i, typ :: t, d, ks2, asK⟩, tok) := by
  unfold outputStart
  rcases ks with _ | ⟨k, ks⟩
  · exact ⟨[], .startElem (ttypeNames typ), rfl⟩
  · rcases asK with _ | ⟨a, as1⟩
    · exact ⟨ks, .startElem k, rfl⟩
    · by_cases h : k = a
      · exact ⟨k :: ks, .startElem k, by simp [h]⟩
      · exact ⟨ks, .startElem k, by simp [h]⟩

/- outputEnd on a non-empty frame stack only pops the frame and possibly a key. -/
theorem outputEnd_state (i : List JToken) (t0 : ttype) (ts : List ttype)
    (d : Option String) (ks asK : List String) :
    ∃ ks2 tok, outputEnd ⟨i, t0 :: ts, d, ks, asK⟩ = (⟨i, ts, d, ks2, asK⟩, tok) := by
  unfold outputEnd
  rcases ks with _ | ⟨k, ks⟩
  · exact ⟨[], .endElem (ttypeNames t0), rfl⟩
  · rcases asK with _ | ⟨a, as1⟩
    · exact ⟨ks, .endElem k, rfl⟩
    · by_cases h : k = a
      · exact ⟨k :: ks, .endElem a, by simp [h]⟩
      · exact ⟨ks, .endElem k, by simp [h]⟩

/- One successful pull taking the converter to the given input, frame stack
   and buffer (key and binding stacks unconstrained). -/
def StepsTo (c : Converter) (i : List JToken) (t : List ttype) (d : Option String) : Prop :=
  ∃ c2 tok, Token c = (c2, .ok tok) ∧ c2.input = i ∧ c2.types = t ∧ c2.data = d

/- A sequence of successful pulls taking the converter to the given input
   and frame stack with an empty buffer. -/
def Consumes (c : Converter) (rest : List JToken) (ts : List ttype) : Prop :=
  ∃ n, (RunN n c).1.input = rest ∧ (RunN n c).1.types = ts ∧
    (RunN n c).1.data = none ∧ (RunN n c).2.2 = none

theorem consumes_zero (c : Converter) (h1 : c.input = rest) (h2 : c.types = ts)
    (h3 : c.data = none) : Consumes c rest ts :=
  ⟨0, by simpa [RunN] using ⟨h1, h2, h3⟩⟩

theorem runN_succ (n : Nat) (c : Converter) :
    RunN (n + 1) c =
      match Token c with
      | (c1, .error e) => (c1, [], some e)
      | (c1, .ok t) => ((RunN n c1).1, t :: (RunN n c1).2.1, (RunN n c1).2.2) :=
  rfl

theorem runN_add (n m : Nat) (c : Converter) :
    RunN (n + m) c =
      match RunN n c with
      | (c1, out1, some e) => (c1, out1, some e)
      | (c1, out1, none) =>
        ((RunN m c1).1, out1 ++ (RunN m c1).2.1, (RunN m c1).2.2) := by
  induction n generalizing c with
  | zero => simp [RunN]
  | succ k ih =>
    rw [Nat.succ_add, runN_succ, runN_succ]
    cases h : Token c with
    | mk c1 r =>
      cases r with
      | error e => simp
      | ok t =>
        simp only []
        rw [ih c1]
        cases hr : RunN k c1 with
        | mk c2 p =>
          cases p with
          | mk out1 st =>
            cases st <;> simp

theorem consumes_cons {c : Converter} {i : List JToken} {t : List ttype}
    {d : Option String} {rest : List JToken} {ts : List ttype}
    (hstep : StepsTo c i t d)
    (hrest : ∀ ks asK, Consumes ⟨i, t, d, ks, asK⟩ rest ts) :
    Consumes c rest ts := by
  obtain ⟨c2, tok, htok, hi, ht, hd⟩ := hstep
  obtain ⟨ii, tt, dd, kk, aa⟩ := c2
  simp only [] at hi ht hd
  subst hi; subst ht; subst hd
  obtain ⟨n, h1, h2, h3, h4⟩ := hrest kk aa
  exact ⟨n + 1, by simpa [RunN, htok] using ⟨h1, h2, h3, h4⟩⟩

theorem consumes_trans {c : Converter} {r1 : List JToken} {t1 : List ttype}
    {r2 : List JToken} {t2 : List ttype}
    (h1 : Consumes c r1 t1)
    (h2 : ∀ ks asK, Consumes ⟨r1, t1, none, ks, asK⟩ r2 t2) :
    Consumes c r2 t2 := by
  obtain ⟨n, ha, hb, hc, hd⟩ := h1
  cases hr : RunN n c with
  | mk c1 p =>
    rw [hr] at ha hb hc hd
    cases p with
    | mk out1 st =>
      simp only [] at ha hb hc hd
      subst hd
      obtain ⟨ii, tt, ddd, kk, aa⟩ := c1
      simp only [] at ha hb hc
      subst ha; subst hb; subst hc
      obtain ⟨m, h5, h6, h7, h8⟩ := h2 kk aa
      refine ⟨n + m, ?_, ?_, ?_, ?_⟩ <;>
        · rw [runN_add, hr]
          simpa using (by first
            | exact h5
            | exact h6
            | exact h7
            | exact h8)

/- Pull flushing the buffered character data (main.go:50-54). -/
theorem step_char (i : List JToken) (t : List ttype) (s : String) (ks asK : List String) :
    StepsTo ⟨i, t, some s, ks, asK⟩ i t none :=
  ⟨⟨i, t, none, ks, asK⟩, .charData s, rfl, rfl, rfl, rfl⟩

/- A pull from a root or array context hands the next raw token straight to
   classification: the object-key branch does not fire. -/
theorem token_read_plain (i : List JToken) (ts : List ttype) (ks asK : List String)
    (v : JToken) (hts : ts = [] ∨ ∃ ts2, ts = .typArray :: ts2) :
    Token ⟨v :: i, ts, none, ks, asK⟩ = classify ⟨i, ts, none, ks, asK⟩ v := by
  rcases hts with h | ⟨ts2, h⟩ <;> subst h <;> simp [Token, readToken]

/- A pull from an object context reading a key pushes it and classifies the
   following raw token (main.go:66-76). -/
theorem token_read_keyed (i : List JToken) (ts : List ttype) (ks asK : List String)
    (k : String) (v : JToken) :
    Token ⟨.jstr k :: v :: i, .typObject :: ts, none, ks, asK⟩ =
      classify ⟨i, .typObject :: ts, none, k :: ks, asK⟩ v := by
  simp [Token, readToken]

theorem stepsTo_of_classify {c c3 : Converter} {v : JToken} {i : List JToken}
    {t : List ttype} {d : Option String}
    (htok : Token c = classify c3 v)
    (hc : ∃ c2 tok, classify c3 v = (c2, .ok tok) ∧
      c2.input = i ∧ c2.types = t ∧ c2.data = d) :
    StepsTo c i t d := by
  obtain ⟨c2, tok, h, h1, h2, h3⟩ := hc
  exact ⟨c2, tok, by rw [htok, h], h1, h2, h3⟩

/- Classifying a start-of-object (main.go:80-81). -/
theorem classify_objStart_state (i : List JToken) (ts : List ttype) (d : Option String)
    (ks asK : List String) :
    ∃ c2 tok, classify ⟨i, ts, d, ks, asK⟩ .objStart = (c2, .ok tok) ∧
      c2.input = i ∧ c2.types = .typObject :: ts ∧ c2.data = d := by
  obtain ⟨ks2, tok, hp⟩ := outputStart_state i ts d ks asK .typObject
  exact ⟨⟨i, .typObject :: ts, d, ks2, asK⟩, tok, by simp only [classify]; rw [hp], rfl, rfl, rfl⟩

/- Classifying a start-of-array (main.go:82-86). -/
theorem classify_arrStart_state (i : List JToken) (ts : List ttype) (d : Option String)
    (ks asK : List String) :
    ∃ c2 tok, classify ⟨i, ts, d, ks, asK⟩ .arrStart = (c2, .ok tok) ∧
      c2.input = i ∧ c2.types = .typArray :: ts ∧ c2.data = d := by
  rcases ks with _ | ⟨k, ks⟩
  · obtain ⟨ks2, tok, hp⟩ := outputStart_state i ts d [] asK .typArray
    exact ⟨⟨i, .typArray :: ts, d, ks2, asK⟩, tok, by simp only [classify]; rw [hp], rfl, rfl, rfl⟩
  · obtain ⟨ks2, tok, hp⟩ := outputStart_state i ts d (k :: ks) (k :: asK) .typArray
    exact ⟨⟨i, .typArray :: ts, d, ks2, k :: asK⟩, tok,
      by simp only [classify]; rw [hp], rfl, rfl, rfl⟩

/- Classifying an end-of-object with Object on top (main.go:87-91). -/
theorem classify_objEnd_state (i : List JToken) (ts : List ttype) (d : Option String)
    (ks asK : List String) :
    ∃ c2 tok, classify ⟨i, .typObject :: ts, d, ks, asK⟩ .objEnd = (c2, .ok tok) ∧
      c2.input = i ∧ c2.types = ts ∧ c2.data = d := by
  obtain ⟨ks2, tok, hp⟩ := outputEnd_state i .typObject ts d ks asK
  exact ⟨⟨i, ts, d, ks2, asK⟩, tok,
    by simp only [classify]; simp; rw [hp]; exact ⟨rfl, rfl⟩, rfl, rfl, rfl⟩

/- Classifying an end-of-array with Array on top (main.go:92-99). -/
theorem classify_arrEnd_state (i : List JToken) (ts : List ttype) (d : Option String)
    (ks asK : List String) :
    ∃ c2 tok, classify ⟨i, .typArray :: ts, d, ks, asK⟩ .arrEnd = (c2, .ok tok) ∧
      c2.input = i ∧ c2.types = ts ∧ c2.data = d := by
  rcases asK with _ | ⟨a, asK⟩
  · obtain ⟨ks2, tok, hp⟩ := outputEnd_state i .typArray ts d ks []
    exact ⟨⟨i, ts, d, ks2, []⟩, tok,
      by simp only [classify]; simp; rw [hp]; exact ⟨rfl, rfl⟩, rfl, rfl, rfl⟩
  · obtain ⟨ks2, tok, hp⟩ := outputEnd_state i .typArray ts d ks asK
    exact ⟨⟨i, ts, d, ks2, asK⟩, tok,
      by simp only [classify]; simp; rw [hp]; exact ⟨rfl, rfl⟩, rfl, rfl, rfl⟩

/- Classifying a scalar token (main.go:103-112): buffer its text, open its
   frame. -/
theorem classify_scalar_state (i : List JToken) (ts : List ttype) (ks asK : List String)
    (v : JToken) (ty : ttype) (hv : scalarKind v = some ty) :
    ∃ c2 tok, classify ⟨i, ts, none, ks, asK⟩ v = (c2, .ok tok) ∧
      c2.input = i ∧ c2.types = ty :: ts ∧ c2.data = some (scalarText v) := by
  cases v with
  | jbool b =>
    cases hv
    obtain ⟨ks2, tok, hp⟩ := outputStart_state i ts (some (cond b ("true") ("false"))) ks asK .typBool
    exact ⟨⟨i, .typBool :: ts, some (cond b ("true") ("false")), ks2, asK⟩, tok,
      by simp only [classify, outputType]; rw [hp], rfl, rfl, rfl⟩
  | jnum s =>
    cases hv
    obtain ⟨ks2, tok, hp⟩ := outputStart_state i ts (some s) ks asK .typNumber
    exact ⟨⟨i, .typNumber :: ts, some s, ks2, asK⟩, tok,
      by simp only [classify, outputType]; rw [hp], rfl, rfl, rfl⟩
  | jstr s =>
    cases hv
    obtain ⟨ks2, tok, hp⟩ := outputStart_state i ts (some s) ks asK .typString
    exact ⟨⟨i, .typString :: ts, some s, ks2, asK⟩, tok,
      by simp only [classify, outputType]; rw [hp], rfl, rfl, rfl⟩
  | jnull =>
    cases hv
    obtain ⟨ks2, tok, hp⟩ := outputStart_state i ts (some ("")) ks asK .typNull
    exact ⟨⟨i, .typNull :: ts, some (""), ks2, asK⟩, tok,
      by simp only [classify, outputType]; rw [hp], rfl, rfl, rfl⟩
  | objStart => cases hv
  | objEnd => cases hv
  | arrStart => cases hv
  | arrEnd => cases hv

/- Pull closing an open scalar frame (main.go:55-61). -/
theorem step_scalar_close (i : List JToken) (ty : ttype) (ts : List ttype)
    (ks asK : List String) (h1 : ty ≠ .typObject) (h2 : ty ≠ .typArray) :
    StepsTo ⟨i, ty :: ts, none, ks, asK⟩ i ts none := by
  obtain ⟨ks2, tok, hp⟩ := outputEnd_state i ty ts none ks asK
  refine ⟨⟨i, ts, none, ks2, asK⟩, tok, ?_, rfl, rfl, rfl⟩
  cases ty <;> first
    | exact absurd rfl h1
    | exact absurd rfl h2
    | · simp only [Token]
        simp
        rw [hp]
        exact ⟨rfl, rfl⟩

/- ---------------------------------------------------------------------- -/
/- Well-formed token streams (the JSON Token Source contract) and the      -/
/- structural-balance induction.                                           -/
/- ---------------------------------------------------------------------- -/

/- Grammar sorts: a single JSON value, the member region of an object
   (key/value pairs, excluding the closing brace), and the element region
   of an array (excluding the closing bracket). -/
inductive GKind where
  | value
  | members
  | elems

/- Well-formed token sequences per the Source contract: one document is one
   value; keys are strings appearing only directly inside an object, each
   immediately followed by one value. -/
inductive WF : GKind → List JToken → Prop where
  | scalar (v : JToken) (ty : ttype) (hv : scalarKind v = some ty) : WF .value [v]
  | obj (m : List JToken) (hm : WF .members m) :
      WF .value (.objStart :: m ++ [.objEnd])
  | arr (e : List JToken) (he : WF .elems e) :
      WF .value (.arrStart :: e ++ [.arrEnd])
  | mnil : WF .members []
  | mcons (k : String) (v m : List JToken) (hv : WF .value v) (hm : WF .members m) :
      WF .members (.jstr k :: (v ++ m))
  | enil : WF .elems []
  | econs (v e : List JToken) (hv : WF .value v) (he : WF .elems e) :
      WF .elems (v ++ e)

/- The consumption property proved by induction over the grammar:
   a value is consumed from a root or array context, or together with its
   key from an object context; a member region consumes its closing brace,
   an element region its closing bracket.  In every case the frame stack
   returns to its entry value and the buffer is empty. -/
def ConsP : GKind → List JToken → Prop
  | .value, v =>
    (∀ rest ts ks asK, (ts = [] ∨ ∃ ts2, ts = .typArray :: ts2) →
      Consumes ⟨v ++ rest, ts, none, ks, asK⟩ rest ts) ∧
    (∀ k rest ts ks asK,
      Consumes ⟨.jstr k :: (v ++ rest), .typObject :: ts, none, ks, asK⟩ rest (.typObject :: ts))
  | .members, m => ∀ rest ts ks asK,
      Consumes ⟨m ++ (.objEnd :: rest), .typObject :: ts, none, ks, asK⟩ rest ts
  | .elems, e => ∀ rest ts ks asK,
      Consumes ⟨e ++ (.arrEnd :: rest), .typArray :: ts, none, ks, asK⟩ rest ts

theorem wf_consume {g : GKind} {t : List JToken} (h : WF g t) : ConsP g t := by
  induction h with
  | scalar v ty hv =>
    constructor
    · intro rest ts ks asK hts
      refine consumes_cons
        (stepsTo_of_classify (token_read_plain rest ts ks asK v hts)
          (classify_scalar_state rest ts ks asK v ty hv)) ?_
      intro ks1 as1
      refine consumes_cons (step_char rest (ty :: ts) (scalarText v) ks1 as1) ?_
      intro ks2 as2
      refine consumes_cons (step_scalar_close rest ty ts ks2 as2 ?_ ?_) ?_
      · cases v <;> simp only [scalarKind] at hv <;> cases hv <;> simp
      · cases v <;> simp only [scalarKind] at hv <;> cases hv <;> simp
      · intro ks3 as3
        exact consumes_zero _ rfl rfl rfl
    · intro k rest ts ks asK
      refine consumes_cons
        (stepsTo_of_classify (token_read_keyed rest ts ks asK k v)
          (classify_scalar_state rest (.typObject :: ts) (k :: ks) asK v ty hv)) ?_
      intro ks1 as1
      refine consumes_cons (step_char rest (ty :: .typObject :: ts) (scalarText v) ks1 as1) ?_
      intro ks2 as2
      refine consumes_cons (step_scalar_close rest ty (.typObject :: ts) ks2 as2 ?_ ?_) ?_
      · cases v <;> simp only [scalarKind] at hv <;> cases hv <;> simp
      · cases v <;> simp only [scalarKind] at hv <;> cases hv <;> simp
      · intro ks3 as3
        exact consumes_zero _ rfl rfl rfl
  | obj m hm ih =>
    constructor
    · intro rest ts ks asK hts
      have heq : (.objStart :: m ++ [.objEnd]) ++ rest = .objStart :: (m ++ (.objEnd :: rest)) := by
        simp
      rw [heq]
      refine consumes_cons
        (stepsTo_of_classify (token_read_plain (m ++ (.objEnd :: rest)) ts ks asK .objStart hts)
          (classify_objStart_state (m ++ (.objEnd :: rest)) ts none ks asK)) ?_
      intro ks1 as1
      exact ih rest ts ks1 as1
    · intro k rest ts ks asK
      have heq : .jstr k :: ((.objStart :: m ++ [.objEnd]) ++ rest) =
          .jstr k :: .objStart :: (m ++ (.objEnd :: rest)) := by simp
      rw [heq]
      refine consumes_cons
        (stepsTo_of_classify (token_read_keyed (m ++ (.objEnd :: rest)) ts ks asK k .objStart)
          (classify_objStart_state (m ++ (.objEnd :: rest)) (.typObject :: ts) none (k :: ks) asK)) ?_
      intro ks1 as1
      exact ih rest (.typObject :: ts) ks1 as1
  | arr e he ih =>
    constructor
    · intro rest ts ks asK hts
      have heq : (.arrStart :: e ++ [.arrEnd]) ++ rest = .arrStart :: (e ++ (.arrEnd :: rest)) := by
        simp
      rw [heq]
      refine consumes_cons
        (stepsTo_of_classify (token_read_plain (e ++ (.arrEnd :: rest)) ts ks asK .arrStart hts)
          (classify_arrStart_state (e ++ (.arrEnd :: rest)) ts none ks asK)) ?_
      intro ks1 as1
      exact ih rest ts ks1 as1
    · intro k rest ts ks asK
      have heq : .jstr k :: ((.arrStart :: e ++ [.arrEnd]) ++ rest) =
          .jstr k :: .arrStart :: (e ++ (.arrEnd :: rest)) := by simp
      rw [heq]
      refine consumes_cons
        (stepsTo_of_classify (token_read_keyed (e ++ (.arrEnd :: rest)) ts ks asK k .arrStart)
          (classify_arrStart_state (e ++ (.arrEnd :: rest)) (.typObject :: ts) none (k :: ks) asK)) ?_
      intro ks1 as1
      exact ih rest (.typObject :: ts) ks1 as1
  | mnil =>
    intro rest ts ks asK
    refine consumes_cons
      (stepsTo_of_classify ?_ (classify_objEnd_state rest ts none ks asK)) ?_
    · simp [Token, readToken]
    · intro ks1 as1
      exact consumes_zero _ rfl rfl rfl
  | mcons k v m hv hm ihv ihm =>
    intro rest ts ks asK
    have heq : (.jstr k :: (v ++ m)) ++ (.objEnd :: rest) =
        .jstr k :: (v ++ (m ++ (.objEnd :: rest))) := by simp
    rw [heq]
    refine consumes_trans (ihv.2 k (m ++ (.objEnd :: rest)) ts ks asK) ?_
    intro ks1 as1
    exact ihm rest ts ks1 as1
  | enil =>
    intro rest ts ks asK
    refine consumes_cons
      (stepsTo_of_classify ?_ (classify_arrEnd_state rest ts none ks asK)) ?_
    · simp [Token, readToken]
    · intro ks1 as1
      exact consumes_zero _ rfl rfl rfl
  | econs v e hv he ihv ihe =>
    intro rest ts ks asK
    have heq : (v ++ e) ++ (.arrEnd :: rest) = v ++ (e ++ (.arrEnd :: rest)) := by simp
    rw [heq]
    refine consumes_trans (ihv.1 (e ++ (.arrEnd :: rest)) (.typArray :: ts) ks asK ?_) ?_
    · exact Or.inr ⟨ts, rfl⟩
    · intro ks1 as1
      exact ihe rest ts ks1 as1

/- ---------------------------------------------------------------------- -/
/- Termination: every successful pull decreases a measure, so a run with   -/
/- convFuel fuel always reaches io.EOF or an error.                        -/
/- ---------------------------------------------------------------------- -/

def convMeasure (c : Converter) : Nat :=
  3 * c.input.length + c.types.length + (if c.data.isSome then 1 else 0)

theorem classify_measure (c : Converter) (v : JToken) (c2 : Converter) (t : XToken)
    (h : classify c v = (c2, .ok t)) : convMeasure c2 ≤ convMeasure c + 2 := by
  obtain ⟨i, ts, d, ks, asK⟩ := c
  cases v with
  | objStart =>
    obtain ⟨ks2, tok, hp⟩ := outputStart_state i ts d ks asK .typObject
    simp only [classify] at h
    rw [hp, Prod.mk.injEq] at h
    rw [← h.1]
    cases d <;> simp [convMeasure] <;> try omega
  | arrStart =>
    rcases ks with _ | ⟨k, ks⟩
    · obtain ⟨ks2, tok, hp⟩ := outputStart_state i ts d [] asK .typArray
      simp only [classify] at h
      rw [hp, Prod.mk.injEq] at h
      rw [← h.1]
      cases d <;> simp [convMeasure] <;> try omega
    · obtain ⟨ks2, tok, hp⟩ := outputStart_state i ts d (k :: ks) (k :: asK) .typArray
      simp only [classify] at h
      rw [hp, Prod.mk.injEq] at h
      rw [← h.1]
      cases d <;> simp [convMeasure] <;> try omega
  | objEnd =>
    rcases ts with _ | ⟨t0, ts⟩
    · simp [classify] at h
    · by_cases ht : t0 = ttype.typObject
      · subst ht
        obtain ⟨ks2, tok, hp⟩ := outputEnd_state i .typObject ts d ks asK
        simp only [classify] at h
        simp only [List.head?_cons, Option.some.injEq, if_pos rfl] at h
        rw [hp, Prod.mk.injEq] at h
        rw [← h.1]
        cases d <;> simp [convMeasure] <;> try omega
      · simp [classify, ht] at h
  | arrEnd =>
    rcases ts with _ | ⟨t0, ts⟩
    · simp [classify] at h
    · by_cases ht : t0 = ttype.typArray
      · subst ht
        rcases asK with _ | ⟨a, asK⟩
        · obtain ⟨ks2, tok, hp⟩ := outputEnd_state i .typArray ts d ks []
          simp only [classify] at h
          simp only [List.head?_cons, Option.some.injEq, if_pos rfl] at h
          rw [hp, Prod.mk.injEq] at h
          rw [← h.1]
          cases d <;> simp [convMeasure] <;> try omega
        · obtain ⟨ks2, tok, hp⟩ := outputEnd_state i .typArray ts d ks asK
          simp only [classify] at h
          simp only [List.head?_cons, Option.some.injEq, if_pos rfl] at h
          rw [hp, Prod.mk.injEq] at h
          rw [← h.1]
          cases d <;> simp [convMeasure] <;> try omega
      · simp [classify, ht] at h
  | jbool b =>
    obtain ⟨ks2, tok, hp⟩ := outputStart_state i ts (some (cond b ("true") ("false"))) ks asK .typBool
    simp only [classify, outputType] at h
    rw [hp, Prod.mk.injEq] at h
    rw [← h.1]
    cases d <;> simp [convMeasure] <;> try omega
  | jnum s =>
    obtain ⟨ks2, tok, hp⟩ := outputStart_state i ts (some s) ks asK .typNumber
    simp only [classify, outputType] at h
    rw [hp, Prod.mk.injEq] at h
    rw [← h.1]
    cases d <;> simp [convMeasure] <;> try omega
  | jstr s =>
    obtain ⟨ks2, tok, hp⟩ := outputStart_state i ts (some s) ks asK .typString
    simp only [classify, outputType] at h
    rw [hp, Prod.mk.injEq] at h
    rw [← h.1]
    cases d <;> simp [convMeasure] <;> try omega
  | jnull =>
    obtain ⟨ks2, tok, hp⟩ := outputStart_state i ts (some ("")) ks asK .typNull
    simp only [classify, outputType] at h
    rw [hp, Prod.mk.injEq] at h
    rw [← h.1]
    cases d <;> simp [convMeasure] <;> try omega

theorem readToken_measure (c c2 : Converter) (t : XToken) (h : readToken c = (c2, .ok t)) :
    convMeasure c2 < convMeasure c := by
  obtain ⟨i, ts, d, ks, asK⟩ := c
  rcases i with _ | ⟨v, rest⟩
  · simp [readToken] at h
  · by_cases hobj : ts.head? = some ttype.typObject ∧ v ≠ JToken.objEnd
    · obtain ⟨hts, hv⟩ := hobj
      cases v with
      | jstr k =>
        rcases rest with _ | ⟨v2, rest2⟩
        · simp [readToken, hts] at h
        · simp only [readToken] at h
          simp [hts] at h
          have := classify_measure ⟨rest2, ts, d, k :: ks, asK⟩ v2 c2 t h
          simp [convMeasure] at this ⊢
          omega
      | objEnd => exact absurd rfl hv
      | objStart => simp [readToken, hts] at h
      | arrStart => simp [readToken, hts] at h
      | arrEnd => simp [readToken, hts] at h
      | jbool b => simp [readToken, hts] at h
      | jnum s => simp [readToken, hts] at h
      | jnull => simp [readToken, hts] at h
    · simp only [readToken] at h
      rw [if_neg hobj] at h
      have := classify_measure ⟨rest, ts, d, ks, asK⟩ v c2 t h
      simp [convMeasure] at this ⊢
      omega

theorem token_ok_measure (c c2 : Converter) (t : XToken) (h : Token c = (c2, .ok t)) :
    convMeasure c2 < convMeasure c := by
  obtain ⟨i, ts, d, ks, asK⟩ := c
  cases d with
  | some s =>
    simp only [Token] at h
    rw [Prod.mk.injEq] at h
    rw [← h.1]
    simp [convMeasure]
  | none =>
    rcases ts with _ | ⟨t0, ts⟩
    · simp only [Token, List.head?] at h
      exact readToken_measure _ c2 t h
    · cases t0 with
      | typObject =>
        simp only [Token, List.head?] at h
        exact readToken_measure _ c2 t h
      | typArray =>
        simp only [Token, List.head?] at h
        exact readToken_measure _ c2 t h
      | typBool =>
        obtain ⟨ks2, tok, hp⟩ := outputEnd_state i .typBool ts none ks asK
        simp only [Token, List.head?] at h
        rw [hp, Prod.mk.injEq] at h
        rw [← h.1]
        simp [convMeasure]
      | typNumber =>
        obtain ⟨ks2, tok, hp⟩ := outputEnd_state i .typNumber ts none ks asK
        simp only [Token, List.head?] at h
        rw [hp, Prod.mk.injEq] at h
        rw [← h.1]
        simp [convMeasure]
      | typString =>
        obtain ⟨ks2, tok, hp⟩ := outputEnd_state i .typString ts none ks asK
        simp only [Token, List.head?] at h
        rw [hp, Prod.mk.injEq] at h
        rw [← h.1]
        simp [convMeasure]
      | typNull =>
        obtain ⟨ks2, tok, hp⟩ := outputEnd_state i .typNull ts none ks asK
        simp only [Token, List.head?] at h
        rw [hp, Prod.mk.injEq] at h
        rw [← h.1]
        simp [convMeasure]

/- With more fuel than the measure, a run always ends in a terminal signal. -/
theorem runN_terminal (n : Nat) (c : Converter) (h : convMeasure c < n) :
    (RunN n c).2.2 ≠ none := by
  induction n generalizing c with
  | zero => omega
  | succ m ih =>
    rw [runN_succ]
    cases htok : Token c with
    | mk c1 r =>
      cases r with
      | error e => simp
      | ok t =>
        simp only []
        have hm := token_ok_measure c c1 t htok
        exact ih c1 (by omega)

/- In particular the full pull sequence of a fresh converter always ends in
   a terminal signal (io.EOF or an error), never in fuel exhaustion. -/
theorem pullsOut_terminal (j : List JToken) : (pullsOut j).2 ≠ none := by
  have : convMeasure (Tokens j) < convFuel j := by
    simp [convMeasure, convFuel, Tokens]
  exact runN_terminal (convFuel j) (Tokens j) this

/- ---------------------------------------------------------------------- -/
/- Relating the driver loop to the converter's pull sequence.              -/
/- ---------------------------------------------------------------------- -/

/- How a terminal pull signal ends the driver loop. -/
def endOf : Option PullErr → LoopEnd
  | none => .fuelOut
  | some .eof => .done
  | some e => .errTok e

/- When no sink call scheduled during the loop fails, the loop forwards
   exactly the pull sequence and ends according to its terminal signal. -/
theorem convLoop_of_runN (fuel : Nat) (c : Converter) (n : Nat) (fs : Nat → Bool)
    (c1 : Converter) (out : List XToken) (st : Option PullErr)
    (hr : RunN fuel c = (c1, out, st))
    (hfs : ∀ i, i < out.length → fs (n + i) = false) :
    convLoop fuel c n fs = (out, n + out.length, endOf st) := by
  induction fuel generalizing c n out st c1 with
  | zero =>
    simp [RunN] at hr
    obtain ⟨h1, h2, h3⟩ := hr
    subst h2
    subst h3
    simp [convLoop, endOf]
  | succ m ih =>
    rw [runN_succ] at hr
    cases htok : Token c with
    | mk c2 r =>
      rw [htok] at hr
      cases r with
      | error e =>
        simp at hr
        obtain ⟨h1, h2, h3⟩ := hr
        subst h2
        subst h3
        cases e <;> simp [convLoop, htok, endOf]
      | ok t =>
        simp at hr
        cases hm : RunN m c2 with
        | mk c3 p =>
          cases p with
          | mk out2 st2 =>
            rw [hm] at hr
            simp at hr
            obtain ⟨h1, h2, h3⟩ := hr
            subst h2
            subst h3
            have h0 : fs n = false := by simpa using hfs 0 (by simp)
            have hrec := ih c2 (n + 1) c3 out2 st2 hm
              (fun i hi => by
                have := hfs (i + 1) (by simp; omega)
                simpa [Nat.add_comm, Nat.add_left_comm, Nat.add_assoc] using this)
            simp [convLoop, htok, h0, hrec]
            omega

/- When the first failing sink call is the one forwarding pull token number
   i (zero-based), the loop stops there with a sink error. -/
theorem convLoop_sinkFail (fuel : Nat) (c : Converter) (n : Nat) (fs : Nat → Bool)
    (c1 : Converter) (out : List XToken) (st : Option PullErr)
    (hr : RunN fuel c = (c1, out, st))
    (i : Nat) (hi : i < out.length) (hit : fs (n + i) = true)
    (hbefore : ∀ l, l < i → fs (n + l) = false) :
    convLoop fuel c n fs = (out.take i, n + i, .errSink) := by
  induction fuel generalizing c n out st c1 i with
  | zero =>
    simp [RunN] at hr
    obtain ⟨h1, h2, h3⟩ := hr
    subst h2
    simp at hi
  | succ m ih =>
    rw [runN_succ] at hr
    cases htok : Token c with
    | mk c2 r =>
      rw [htok] at hr
      cases r with
      | error e =>
        simp at hr
        obtain ⟨h1, h2, h3⟩ := hr
        subst h2
        simp at hi
      | ok t =>
        simp at hr
        cases hm : RunN m c2 with
        | mk c3 p =>
          cases p with
          | mk out2 st2 =>
            rw [hm] at hr
            simp at hr
            obtain ⟨h1, h2, h3⟩ := hr
            subst h2
            cases i with
            | zero =>
              simp at hit
              simp [convLoop, htok, hit]
            | succ i2 =>
              have h0 : fs n = false := by simpa using hbefore 0 (Nat.succ_pos _)
              have hrec := ih c2 (n + 1) c3 out2 st2 hm i2
                (by simp at hi; omega)
                (by
                  have : n + 1 + i2 = n + (i2 + 1) := by omega
                  rw [this]
                  exact hit)
                (fun l hl => by
                  have := hbefore (l + 1) (by omega)
                  simpa [Nat.add_comm, Nat.add_left_comm, Nat.add_assoc] using this)
              simp [convLoop, htok, h0, hrec]
              omega

/- ---------------------------------------------------------------------- -/
/- Claims.                                                                 -/
/- ---------------------------------------------------------------------- -/

/-- C1 (counterexample): on the document with the single field
"number": 1 the keyed non-array value opens with a start tag named
"number" (the field key) and closes with an end tag named "number" (the
kind default): the start and end tag names are equal, refuting the claim
that they always differ for keyed non-array values. -/
theorem C1_counterexample :
    (Convert [.objStart, .jstr ("number"), .jnum ("1"), .objEnd] noFail).1 =
      [.startElem ("root"), .startElem ("object"), .startElem ("number"),
       .charData ("1"), .endElem ("number"), .endElem ("object"), .endElem ("root")] := by
  decide

/-- C1 (amended): for a pull in object context with no pending keys and no
active array binding that reads a field key k followed by a scalar value,
the converter emits a start tag named k and pops the key, then the value's
character data, then an end tag named by the value's kind-default name; the
start and end names therefore differ exactly when k is not the kind-default
name. -/
theorem C1_keyed_scalar_naming (k : String) (v : JToken) (ty : ttype)
    (ts : List ttype) (rest : List JToken) (hv : scalarKind v = some ty) :
    RunN 3 ⟨.jstr k :: v :: rest, .typObject :: ts, none, [], []⟩ =
      (⟨rest, .typObject :: ts, none, [], []⟩,
       [.startElem k, .charData (scalarText v), .endElem (ttypeNames ty)], none) := by
  cases v <;> simp only [scalarKind] at hv <;> cases hv <;> rfl

theorem C1_keyed_scalar_naming_witness :
    RunN 3 ⟨[.jstr ("a"), .jnum ("1"), .objEnd], [.typObject], none, [], []⟩ =
      (⟨[.objEnd], [.typObject], none, [], []⟩,
       [.startElem ("a"), .charData ("1"), .endElem ("number")], none) :=
  C1_keyed_scalar_naming ("a") (.jnum ("1")) .typNumber [] [.objEnd] rfl

/-- C2 (counterexample): on the token stream of the document binding key
"tags" to the array of "x" and "y", the driver output does not serialize
to the claimed text: the root object's "object" wrapper element is
present. -/
theorem C2_counterexample :
    serialize (Convert [.objStart, .jstr ("tags"), .arrStart, .jstr ("x"),
        .jstr ("y"), .arrEnd, .objEnd] noFail).1 ≠
      "<root><tags><tags>x</tags><tags>y</tags></tags></root>" := by
  decide

/-- C2 (amended): on the token stream of the document binding key "tags" to
the array of "x" and "y", the run succeeds and the full output is the root
wrapper, the object's default-named element, and the key-bound array whose
container element and string elements are all named "tags". -/
theorem C2_keyed_array_output :
    Convert [.objStart, .jstr ("tags"), .arrStart, .jstr ("x"), .jstr ("y"),
        .arrEnd, .objEnd] noFail =
      ([.startElem ("root"), .startElem ("object"), .startElem ("tags"),
        .startElem ("tags"), .charData ("x"), .endElem ("tags"),
        .startElem ("tags"), .charData ("y"), .endElem ("tags"),
        .endElem ("tags"), .endElem ("object"), .endElem ("root")], none) ∧
    serialize (Convert [.objStart, .jstr ("tags"), .arrStart, .jstr ("x"),
        .jstr ("y"), .arrEnd, .objEnd] noFail).1 =
      "<root><object><tags><tags>x</tags><tags>y</tags></tags></object></root>" := by
  decide

/-- C3 (counterexample): on the token stream of the document with the
single field "a": 1 the output does not begin with the start tags root then
a: the root object's "object" element comes between them. -/
theorem C3_counterexample :
    (Convert [.objStart, .jstr ("a"), .jnum ("1"), .objEnd] noFail).1.take 2 ≠
      [.startElem ("root"), .startElem ("a")] := by
  decide

/-- C3 (amended): on the token stream of the document with the single field
"a": 1 the run succeeds and the output is: start root, start object (the
root object's default-named element), start a, character data 1, an end tag
named by Number's default name, end object, end root. -/
theorem C3_simple_field_output :
    Convert [.objStart, .jstr ("a"), .jnum ("1"), .objEnd] noFail =
      ([.startElem ("root"), .startElem ("object"), .startElem ("a"),
        .charData ("1"), .endElem ("number"), .endElem ("object"),
        .endElem ("root")], none) ∧
    serialize (Convert [.objStart, .jstr ("a"), .jnum ("1"), .objEnd] noFail).1 =
      "<root><object><a>1</number></object></root>" := by
  decide

/-- C4: on the token stream of the root array of the numbers 1, 2 and 3
the run succeeds and every element uses its kind's default name with the
array container named array, wrapped in the root element. -/
theorem C4_root_array_output :
    Convert [.arrStart, .jnum ("1"), .jnum ("2"), .jnum ("3"), .arrEnd] noFail =
      ([.startElem ("root"), .startElem ("array"),
        .startElem ("number"), .charData ("1"), .endElem ("number"),
        .startElem ("number"), .charData ("2"), .endElem ("number"),
        .startElem ("number"), .charData ("3"), .endElem ("number"),
        .endElem ("array"), .endElem ("root")], none) ∧
    serialize (Convert [.arrStart, .jnum ("1"), .jnum ("2"), .jnum ("3"),
        .arrEnd] noFail).1 =
      "<root><array><number>1</number><number>2</number><number>3</number></array></root>" := by
  decide

/-- C5: a pull in object context whose first raw token is neither an
end-of-object marker nor a string fails with InvalidKeyError, consuming
that token and emitting no XML token. -/
theorem C5_invalid_key (t : JToken) (rest : List JToken) (ts : List ttype)
    (ks asK : List String) (h1 : t ≠ .objEnd) (h2 : ∀ s, t ≠ .jstr s) :
    Token ⟨t :: rest, .typObject :: ts, none, ks, asK⟩ =
      (⟨rest, .typObject :: ts, none, ks, asK⟩, .error .invalidKey) := by
  cases t with
  | objEnd => exact absurd rfl h1
  | jstr s => exact absurd rfl (h2 s)
  | objStart => rfl
  | arrStart => rfl
  | arrEnd => rfl
  | jbool _ => rfl
  | jnum _ => rfl
  | jnull => rfl

theorem C5_invalid_key_witness :
    Token ⟨[.jnum ("1")], [.typObject], none, [], []⟩ =
      (⟨[], [.typObject], none, [], []⟩, .error .invalidKey) :=
  C5_invalid_key (.jnum ("1")) [] [] [] []
    (fun h => JToken.noConfusion h) (fun _ h => JToken.noConfusion h)

/-- C6 (amended): an end-of-object read while the frame stack is empty or
its top is Array fails with InvalidTokenError; an end-of-array read while
the stack is empty fails with InvalidTokenError; but an end-of-array
arriving as the first raw token while the top is Object is intercepted by
the object-key check and fails with InvalidKeyError, while an end-of-array
arriving as a key's value token fails with InvalidTokenError; no XML token
is emitted in any of these cases. -/
theorem C6_mismatched_close (rest : List JToken) (ts : List ttype)
    (ks asK : List String) (k : String) :
    Token ⟨.objEnd :: rest, [], none, ks, asK⟩ =
      (⟨rest, [], none, ks, asK⟩, .error .invalidToken) ∧
    Token ⟨.objEnd :: rest, .typArray :: ts, none, ks, asK⟩ =
      (⟨rest, .typArray :: ts, none, ks, asK⟩, .error .invalidToken) ∧
    Token ⟨.arrEnd :: rest, [], none, ks, asK⟩ =
      (⟨rest, [], none, ks, asK⟩, .error .invalidToken) ∧
    Token ⟨.arrEnd :: rest, .typObject :: ts, none, ks, asK⟩ =
      (⟨rest, .typObject :: ts, none, ks, asK⟩, .error .invalidKey) ∧
    Token ⟨.jstr k :: .arrEnd :: rest, .typObject :: ts, none, ks, asK⟩ =
      (⟨rest, .typObject :: ts, none, k :: ks, asK⟩, .error .invalidToken) :=
  ⟨rfl, rfl, rfl, rfl, rfl⟩

/-- C6 (counterexample): after opening the root object, a bare end-of-array
marker (frame stack top is Object, not Array) fails with InvalidKeyError,
not the claimed InvalidTokenError. -/
theorem C6_counterexample :
    RunN 2 (Tokens [.objStart, .arrEnd]) =
      (⟨[], [.typObject], none, [], []⟩, [.startElem ("object")], some .invalidKey) ∧
    PullErr.invalidKey ≠ PullErr.invalidToken := by
  decide

/-- C7: the driver encodes a start tag named root as its first sink call
(returning the sink's error if that call fails); a clean end-of-stream with
no sink failure appends the end tag named root and returns success; a
non-EOF pull error, a sink failure while forwarding a token, or a failure
of the final end-root call is returned to the caller with the root's
closing end tag never successfully emitted by the driver. -/
theorem C7_driver_contract (j : List JToken) (fs : Nat → Bool)
    (out : List XToken) (st : Option PullErr) (hpo : pullsOut j = (out, st)) :
    (fs 0 = true → Convert j fs = ([], some .sinkErr)) ∧
    (fs 0 = false → (Convert j fs).1.head? = some (.startElem ("root"))) ∧
    (st = some .eof → (∀ i, i ≤ out.length + 1 → fs i = false) →
      Convert j fs = (.startElem ("root") :: out ++ [.endElem ("root")], none)) ∧
    (∀ e, st = some e → e ≠ .eof → fs 0 = false →
      (∀ i, i < out.length → fs (1 + i) = false) →
      Convert j fs = (.startElem ("root") :: out, some (.pullErr e))) ∧
    (∀ i, i < out.length → fs 0 = false → fs (1 + i) = true →
      (∀ l, l < 1 + i → fs l = false) →
      Convert j fs = (.startElem ("root") :: out.take i, some .sinkErr)) ∧
    (st = some .eof → fs 0 = false → (∀ i, i < out.length → fs (1 + i) = false) →
      fs (1 + out.length) = true →
      Convert j fs = (.startElem ("root") :: out, some .sinkErr)) := by
  cases hR : RunN (convFuel j) (Tokens j) with
  | mk c1 p =>
    cases p with
    | mk o s =>
      have hos : (o, s) = (out, st) := by
        rw [← hpo]
        simp [pullsOut, hR]
      rw [Prod.mk.injEq] at hos
      rw [hos.1, hos.2] at hR
      refine ⟨?_, ?_, ?_, ?_, ?_, ?_⟩
      · intro h0
        simp [Convert, h0]
      · intro h0
        simp only [Convert, h0, Bool.false_eq_true, if_false]
        cases hcl : convLoop (convFuel j) (Tokens j) 1 fs with
        | mk o2 p2 =>
          cases p2 with
          | mk n2 en =>
            cases en with
            | done =>
              simp [hcl]
              split <;> simp
            | errTok e => simp [hcl]
            | errSink => simp [hcl]
            | fuelOut => simp [hcl]
      · intro hse hall
        have h0 : fs 0 = false := hall 0 (by omega)
        have hcl := convLoop_of_runN (convFuel j) (Tokens j) 1 fs c1 out st hR
          (fun i hi => hall (1 + i) (by omega))
        rw [hse] at hcl
        have hlast : fs (1 + out.length) = false := hall (1 + out.length) (by omega)
        have hlast2 : fs (out.length + 1) = false := hall (out.length + 1) (by omega)
        simp [Convert, h0, hcl, endOf, Nat.add_comm, hlast, hlast2]
      · intro e hse hne h0 hloop
        have hcl := convLoop_of_runN (convFuel j) (Tokens j) 1 fs c1 out st hR
          (fun i hi => hloop i hi)
        rw [hse] at hcl
        cases e with
        | eof => exact absurd rfl hne
        | invalidKey => simp [Convert, h0, hcl, endOf]
        | invalidToken => simp [Convert, h0, hcl, endOf]
        | unknownToken => simp [Convert, h0, hcl, endOf]
      · intro i hi h0 hit hbefore
        have hcl := convLoop_sinkFail (convFuel j) (Tokens j) 1 fs c1 out st hR i hi hit
          (fun l hl => hbefore (1 + l) (by omega))
        simp [Convert, h0, hcl]
      · intro hse h0 hloop hlast
        have hcl := convLoop_of_runN (convFuel j) (Tokens j) 1 fs c1 out st hR
          (fun i hi => hloop i hi)
        rw [hse] at hcl
        simp [Convert, h0, hcl, endOf, hlast]

theorem C7_driver_contract_witness :
    Convert [] noFail = ([.startElem ("root"), .endElem ("root")], none) := by
  have h := C7_driver_contract [] noFail [] (some .eof) (by decide)
  exact h.2.2.1 rfl (fun i _ => rfl)

/-- C8: for any input whose token stream is a well-formed document per the
Source contract, the frame stack is empty before the first pull, and the
run reaches (with every pull succeeding) a state whose frame stack is empty
from which the next pull signals end-of-input, leaving the frame stack
empty. -/
theorem C8_structural_balance (j : List JToken) (h : WF .value j) :
    (Tokens j).types = [] ∧
    ∃ n, (RunN n (Tokens j)).2.2 = none ∧
      (RunN n (Tokens j)).1.types = [] ∧
      (Token (RunN n (Tokens j)).1).2 = .error .eof ∧
      (Token (RunN n (Tokens j)).1).1.types = [] := by
  refine ⟨rfl, ?_⟩
  have hc0 := (wf_consume h).1 [] [] [] [] (Or.inl rfl)
  rw [List.append_nil] at hc0
  have hc : Consumes (Tokens j) [] [] := hc0
  obtain ⟨n, h1, h2, h3, h4⟩ := hc
  refine ⟨n, h4, h2, ?_, ?_⟩ <;>
    · rcases hC : (RunN n (Tokens j)).1 with ⟨ii, tt, dd, kk, aa⟩
      rw [hC] at h1 h2 h3
      simp only [] at h1 h2 h3
      subst h1
      subst h2
      subst h3
      rfl

theorem C8_structural_balance_witness :
    (Tokens [.objStart, .objEnd]).types = [] ∧
    ∃ n, (RunN n (Tokens [.objStart, .objEnd])).2.2 = none ∧
      (RunN n (Tokens [.objStart, .objEnd])).1.types = [] ∧
      (Token (RunN n (Tokens [.objStart, .objEnd])).1).2 = .error .eof ∧
      (Token (RunN n (Tokens [.objStart, .objEnd])).1).1.types = [] :=
  C8_structural_balance [.objStart, .objEnd] (WF.obj [] WF.mnil)

/-- C9: the converter and driver are deterministic functions of the input
token stream: two fresh converter instances built from equal inputs yield
identical pull sequences, and two driver runs over equal inputs with equal
sink behaviour yield identical outputs. -/
theorem C9_deterministic (j1 j2 : List JToken) (h : j1 = j2) :
    (∀ n, RunN n (Tokens j1) = RunN n (Tokens j2)) ∧
    (∀ fs, Convert j1 fs = Convert j2 fs) := by
  subst h
  exact ⟨fun _ => rfl, fun _ => rfl⟩

theorem C9_deterministic_witness :
    (∀ n, RunN n (Tokens [.objStart, .objEnd]) = RunN n (Tokens [.objStart, .objEnd])) ∧
    (∀ fs, Convert [.objStart, .objEnd] fs = Convert [.objStart, .objEnd] fs) :=
  C9_deterministic [.objStart, .objEnd] [.objStart, .objEnd] rfl

/-- C10: when the source is exhausted right after an object key, the pull
returns the end-of-stream signal with the key left pushed on the pending
key stack; and the driver treats any end-of-stream signal as normal
termination, emitting the closing root tag and returning success. -/
theorem C10_truncated_after_key :
    (∀ (k : String) (ts : List ttype) (ks asK : List String),
      Token ⟨[.jstr k], .typObject :: ts, none, ks, asK⟩ =
        (⟨[], .typObject :: ts, none, k :: ks, asK⟩, .error .eof)) ∧
    (∀ (j : List JToken) (out : List XToken), pullsOut j = (out, some .eof) →
      Convert j noFail = (.startElem ("root") :: out ++ [.endElem ("root")], none)) := by
  constructor
  · intro k ts ks asK
    rfl
  · intro j out hpo
    cases hR : RunN (convFuel j) (Tokens j) with
    | mk c1 p =>
      cases p with
      | mk o s =>
        have heq : (o, s) = (out, some PullErr.eof) := by
          rw [← hpo]
          simp [pullsOut, hR]
        rw [Prod.mk.injEq] at heq
        rw [heq.1, heq.2] at hR
        have hcl := convLoop_of_runN (convFuel j) (Tokens j) 1 noFail c1 out
          (some .eof) hR (fun i _ => rfl)
        simp [Convert, noFail, hcl, endOf]

theorem C10_truncated_after_key_witness :
    Token ⟨[.jstr ("a")], [.typObject], none, [], []⟩ =
      (⟨[], [.typObject], none, [("a")], []⟩, .error .eof) ∧
    Convert [.objStart, .jstr ("a")] noFail =
      ([.startElem ("root"), .startElem ("object"), .endElem ("root")], none) :=
  ⟨C10_truncated_after_key.1 ("a") [] [] [],
   C10_truncated_after_key.2 [.objStart, .jstr ("a")] [.startElem ("object")] (by decide)⟩

/- The bounded-fuel embedding of Go's unbounded driver loop is faithful:
   with convFuel fuel the loop always ends in done, a pull error or a sink
   error, never in fuel exhaustion. -/
theorem convert_no_fuelOut (j : List JToken) (fs : Nat → Bool) :
    (Convert j fs).2 ≠ some CErr.fuelOut := by
  by_cases h0 : fs 0
  · simp [Convert, h0]
  · have hf0 : fs 0 = false := by simpa using h0
    cases hR : RunN (convFuel j) (Tokens j) with
    | mk c1 p =>
      cases p with
      | mk out st =>
        have hst : st ≠ none := by
          have hterm := pullsOut_terminal j
          simp [pullsOut, hR] at hterm
          exact hterm
        by_cases hfail : ∃ i, i < out.length ∧ fs (1 + i) = true
        · have hP := Nat.find_spec hfail
          have hbefore : ∀ l, l < Nat.find hfail → fs (1 + l) = false := by
            intro l hl
            have hn := Nat.find_min hfail hl
            by_cases hfl : fs (1 + l) = true
            · exact absurd ⟨by omega, hfl⟩ hn
            · simpa using hfl
          have hcl := convLoop_sinkFail (convFuel j) (Tokens j) 1 fs c1 out st hR
            (Nat.find hfail) hP.1 hP.2 hbefore
          simp [Convert, hf0, hcl]
        · push_neg at hfail
          have hcl := convLoop_of_runN (convFuel j) (Tokens j) 1 fs c1 out st hR
            (fun i hi => by
              have := hfail i hi
              exact Bool.not_eq_true _ |>.mp this)
          cases st with
          | none => exact absurd rfl hst
          | some e =>
            cases e with
            | eof =>
              simp [Convert, hf0, hcl, endOf]
              split <;> simp
            | invalidKey => simp [Convert, hf0, hcl, endOf]
            | invalidToken => simp [Convert, hf0, hcl, endOf]
            | unknownToken => simp [Convert, hf0, hcl, endOf]
